import Mathlib

/-!
Verification of the orchestration kernel and helper code of the gardener
repository: the resumable error context, the bounded retry poller, the
dependency-graph flow executor, the DNS-watchdog leader check, the cluster
lease watchdog reconciler, and the optimistic-concurrency object helpers.

The flow / errors / retry kernel packages are not part of the source tree
here (only their caller `pkg/gardenlet/controller/shoot/shoot_control_migrate.go`
is), so those components are modelled from the specification, as recorded in
the doc comments of the corresponding definitions.  Everything else is a
direct shallow embedding of the Go source.
-/

namespace ErrorsPkg

/-- Modelled from the spec: the outcome a step function of the resumable
error-context runner can produce, per section 6 of the spec ("may return
the cancellation sentinel to request a no-op abort, or any other error for
failure").  `cancel` models a step returning `utilerrors.Cancel()`. -/
inductive StepOutcome
  | success
  | cancel
  | failure
  deriving DecidableEq, Repr

/-- Modelled from the spec: a step of the error-context runner, an
`{id, fn}` pair (spec section 3, "Step (for the Error Context runner)");
the step function is represented by the outcome it produces. -/
structure ECTask where
  errorID : String
  fn : StepOutcome
  deriving DecidableEq, Repr

/-- Modelled from the spec: `ToExecute` pairs a step identifier with its
function, matching the `utilerrors.ToExecute(id, fn)` calls in
`shoot_control_migrate.go`. -/
def ToExecute (id : String) (fn : StepOutcome) : ECTask := ⟨id, fn⟩

/-- Modelled from the spec: `ErrorContext` carries a scope name and the set
of step identifiers that failed on the previous attempt (spec section 3). -/
structure ErrorContext where
  name : String
  priorFailedIDs : List String
  deriving DecidableEq, Repr

/-- Modelled from the spec: `NewErrorContext(scopeName, priorFailedIDs)`
seeds the context from identifiers that failed on a previous attempt. -/
def NewErrorContext (n : String) (prior : List String) : ErrorContext := ⟨n, prior⟩

/-- Modelled from the spec: the error value `HandleErrors` hands back —
either the distinguished cancellation error or a wrapped error referencing
every step id that failed this attempt. -/
inductive HandleError
  | canceled
  | failedSteps (ids : List String)
  deriving DecidableEq, Repr

/-- Modelled from the spec: `WasCanceled(err)` recognises the cancellation
sentinel, letting callers distinguish a cancelled run both from true
success (`none`) and from real failure. -/
def WasCanceled : Option HandleError → Bool
  | some .canceled => true
  | _ => false

/-- Accumulated observations of one `HandleErrors` run: the ids of steps
whose function was invoked in order, the ids for which the `onResume`
callback fired, the ids appended to `currentFailedIDs`, and whether a step
returned the cancellation sentinel. -/
structure LoopOut where
  executed : List String
  resumed : List String
  failedIDs : List String
  canceled : Bool
  deriving DecidableEq, Repr

/-- Modelled from the spec (section 4.4): the sequential step loop of
`HandleErrors`.  Steps run strictly in order; before a step whose id is in
`priorFailedIDs` the `onResume` callback fires; a step returning the
cancellation sentinel aborts the remaining steps; any other error appends
the step id to `currentFailedIDs` and execution continues to subsequent
steps. -/
def handleLoop (prior : List String) : List ECTask → LoopOut
  | [] => ⟨[], [], [], false⟩
  | t :: rest =>
    let res := if t.errorID ∈ prior then [t.errorID] else []
    match t.fn with
    | .cancel => ⟨[t.errorID], res, [], true⟩
    | .success =>
      let q := handleLoop prior rest
      ⟨t.errorID :: q.executed, res ++ q.resumed, q.failedIDs, q.canceled⟩
    | .failure =>
      let q := handleLoop prior rest
      ⟨t.errorID :: q.executed, res ++ q.resumed, t.errorID :: q.failedIDs, q.canceled⟩

/-- The full result of a `HandleErrors` run: the observations of the loop
plus the error returned to the caller. -/
structure HandleResult where
  executed : List String
  resumed : List String
  currentFailedIDs : List String
  result : Option HandleError
  deriving DecidableEq, Repr

/-- Modelled from the spec (section 4.4): `HandleErrors` executes the steps
in order and returns a wrapped error referencing every step id that failed
this attempt, or no error if none failed.  The spec also states that
`WasCanceled(err)` lets callers detect a cancelled run distinctly, and the
caller in `shoot_control_migrate.go` (lines 162-165) applies `WasCanceled`
to a non-nil error returned by `HandleErrors` before mapping it to nil;
the model therefore returns the distinguished cancellation error (rather
than nil) when a step returned the sentinel. -/
def HandleErrors (ec : ErrorContext) (tasks : List ECTask) : HandleResult :=
  let q := handleLoop ec.priorFailedIDs tasks
  ⟨q.executed, q.resumed, q.failedIDs,
    if q.canceled then some .canceled
    else if q.failedIDs.isEmpty then none
    else some (.failedSteps q.failedIDs)⟩

/-- Embedding of the error handling in `runPrepareShootControlPlaneMigration`
(`shoot_control_migrate.go` lines 162-167): a non-nil error from
`HandleErrors` is mapped to no error when `WasCanceled` holds, and wrapped
(kept) otherwise. -/
def migrateErrorHandling (err : Option HandleError) : Option HandleError :=
  match err with
  | none => none
  | some e => if WasCanceled (some e) then none else some e

end ErrorsPkg

namespace RetryPkg

/-- Modelled from the spec (section 6): the probe-function contract of the
bounded poller, a pair `(done : bool, error)`. -/
structure ProbeResult where
  done : Bool
  err : Option String
  deriving DecidableEq, Repr

/-- Modelled from the spec: `Ok()` signals success (`done=true, error=nil`). -/
def Ok : ProbeResult := ⟨true, none⟩

/-- Modelled from the spec: `SevereError(err)` signals an immediate fatal
failure (`done=true, error=non-nil`). -/
def SevereError (e : String) : ProbeResult := ⟨true, some e⟩

/-- Modelled from the spec: `MinorError(err)` signals "keep retrying,
remember this error" (`done=false, error=non-nil`). -/
def MinorError (e : String) : ProbeResult := ⟨false, some e⟩

/-- Modelled from the spec: the possible outcomes of a bounded poll —
success, an immediate fatal failure, or timeout carrying the last
remembered transient error. -/
inductive PollOutcome
  | success
  | severe (e : String)
  | timedOut (last : Option String)
  deriving DecidableEq, Repr

/-- Modelled from the spec (section 4.3): the retry loop of the bounded
poller.  Time is discretised into poll attempts; `probe k` is the result of
the k-th invocation, `last` the currently remembered transient error, and
the fuel is the number of attempts the timeout still allows.  `done=true`
with no error terminates with success; `done=true` with an error is an
immediate fatal failure; `done=false` with an error retries with that error
remembered; exhausting the timeout returns the last transient error. -/
def pollFrom (probe : Nat → ProbeResult) : Nat → Option String → Nat → PollOutcome
  | _, last, 0 => .timedOut last
  | k, last, fuel + 1 =>
    match (probe k).done, (probe k).err with
    | true, none => .success
    | true, some e => .severe e
    | false, some e => pollFrom probe (k + 1) (some e) fuel
    | false, none => pollFrom probe (k + 1) last fuel

/-- Modelled from the spec: `UntilTimeout(ctx, interval, timeout, probe)`,
with the timeout expressed as the number of poll attempts it allows. -/
def UntilTimeout (timeoutSteps : Nat) (probe : Nat → ProbeResult) : PollOutcome :=
  pollFrom probe 0 none timeoutSteps

end RetryPkg

namespace WatchdogCommon

/-- Embedding of the `watchdog` struct of
`extensions/pkg/controller/common/watchdog.go` (the logger field carries no
data relevant to control flow). -/
structure Watchdog where
  recordToCheck : String
  expected : String
  deriving DecidableEq, Repr

/-- The result of `net.LookupTXT`: the returned records and an optional
error (on lookup failure the record slice is empty and the error is set). -/
structure LookupResult where
  records : List String
  err : Option String
  deriving DecidableEq, Repr

/-- Embedding of `watchdog.leaderCheck` (watchdog.go lines 89-95), with the
outcome of `net.LookupTXT` supplied as input.  The error branch of the
source only logs and does not return, so the function always evaluates
`owner[0] == string(w.expected)`; `none` models the Go index-out-of-range
panic when the record slice is empty. -/
def leaderCheck (w : Watchdog) (lookup : LookupResult) : Option Bool :=
  match lookup.records with
  | [] => none
  | o :: _ => some (o == w.expected)

end WatchdogCommon

namespace LeaseWatchdog

/-- A registered cancel function, identified opaquely.  The zero value of a
Go function type is nil, so a map lookup that misses yields no cancel
function. -/
abbrev CancelId := Nat

/-- Embedding of the `clusterLeaseWatchdog` struct of the watchdog package
(src/unnamed/part_007).  A Go map value may be nil (its zero value): `none`
models the nil map, `some m` a made map with entries `m`. -/
structure ClusterLeaseWatchdog where
  clustersToCheck : Option (List (String × CancelId))
  deriving DecidableEq, Repr

/-- Embedding of `NewReconciler` (part_007 lines 62-64): it returns a
`clusterLeaseWatchdog` with all fields left at their zero values, so
`clustersToCheck` is the nil map. -/
def NewReconciler : ClusterLeaseWatchdog := ⟨none⟩

/-- A Go map read: reading a nil map is legal and yields the zero value
(here: no cancel function). -/
def mapLookup (m : Option (List (String × CancelId))) (k : String) : Option CancelId :=
  match m with
  | none => none
  | some l => l.lookup k

/-- Embedding of `clusterLeaseWatchdog.Register` (part_007 lines 82-86):
it assigns the new cancel function into `clustersToCheck`.  Assigning into
a nil Go map panics at runtime, modelled by `none`; otherwise the updated
watchdog is returned. -/
def Register (w : ClusterLeaseWatchdog) (ns : String) (cf : CancelId) :
    Option ClusterLeaseWatchdog :=
  match w.clustersToCheck with
  | none => none
  | some m => some ⟨some ((ns, cf) :: m)⟩

/-- Outcome of one `Reconcile` call: a normal result, an error return from
`GetCluster`, or a runtime panic. -/
inductive ReconcileOutcome
  | ok
  | err
  | panic
  deriving DecidableEq, Repr

/-- Embedding of `clusterLeaseWatchdog.Reconcile` (part_007 lines 66-80).
The cancel function is read from the map first (a nil-map read is safe and
yields the nil function); then `GetCluster` may fail (`getClusterErr`);
then, if the lease is expired, `cancelFunc()` is invoked — calling the nil
function obtained from a missed lookup panics. -/
def Reconcile (w : ClusterLeaseWatchdog) (ns : String)
    (getClusterErr : Bool) (leaseExpired : Bool) : ReconcileOutcome :=
  let cancelFunc := mapLookup w.clustersToCheck ns
  if getClusterErr then .err
  else if leaseExpired then
    match cancelFunc with
    | none => .panic
    | some _ => .ok
  else .ok

end LeaseWatchdog

namespace UtilsObject

/-- Embedding of the `maxRetries` constant of `pkg/utils/object.go`
(lines 28-30). -/
def maxRetries : Nat := 3

/-- Outcome of the `c.Get` call of one loop iteration of
`CreateOrUpdateObject`: the object exists, it is not found, or the get
fails with a non-not-found error. -/
inductive GetOutcome
  | found
  | notFound
  | getErr
  deriving DecidableEq, Repr

/-- Outcome of the `c.Create` / `c.Update` call of one loop iteration:
success, a conflict error, or any other error. -/
inductive WriteOutcome
  | writeOk
  | conflict
  | otherErr
  deriving DecidableEq, Repr

/-- The behaviour of the API server for one loop iteration of
`CreateOrUpdateObject`: what the get returns and what the subsequent
create-or-update returns. -/
structure Attempt where
  get : GetOutcome
  write : WriteOutcome
  deriving DecidableEq, Repr

/-- The return value of `CreateOrUpdateObject`: nil, a wrapped get error,
or a wrapped create-or-update error. -/
inductive CouResult
  | success
  | getFailure
  | writeFailure
  deriving DecidableEq, Repr

/-- Embedding of the retry loop of `CreateOrUpdateObject`
(`pkg/utils/object.go` lines 94-124), iteration counter `retries` as in the
source.  `env retries` supplies the client outcomes of the iteration.  A
non-not-found get error returns a wrapped error; a successful write ends
the loop with nil; a non-conflict write error, or a conflict when
`retries == maxRetries`, returns a wrapped error; a conflict otherwise
retries.  The fuel argument only bounds the recursion; `none` means the
loop would still be running after that many iterations. -/
def createOrUpdateLoop (env : Nat → Attempt) : Nat → Nat → Option CouResult
  | _, 0 => none
  | retries, fuel + 1 =>
    match (env retries).get with
    | .getErr => some .getFailure
    | _ =>
      match (env retries).write with
      | .writeOk => some .success
      | .otherErr => some .writeFailure
      | .conflict =>
        if retries == maxRetries then some .writeFailure
        else createOrUpdateLoop env (retries + 1) fuel

/-- Embedding of `CreateOrUpdateObject` (`pkg/utils/object.go` lines
85-126): the loop starts at `retries = 0`; `maxRetries + 1` iterations
always suffice (proved below), so running the loop with that much fuel is
exact. -/
def CreateOrUpdateObject (env : Nat → Attempt) : Option CouResult :=
  createOrUpdateLoop env 0 (maxRetries + 1)

end UtilsObject

namespace FlowPkg

/-- Modelled from the spec: the result a task function produces when run —
success or failure (spec section 3, `StepFn` is `(context) -> error|nil`). -/
inductive TaskResult
  | ok
  | err
  deriving DecidableEq, Repr

/-- Modelled from the spec: a step function as the scheduler sees it.  A
`base` function is an opaque unit of work carrying an identity (to observe
invocations) and the result it produces; `noop` is the no-op success that
`DoIf(false)` substitutes for the wrapped function (spec section 4.3: "if
false at decoration time, the inner function is replaced by a no-op
success"). -/
inductive StepFn
  | base (id : Nat) (res : TaskResult)
  | noop
  deriving DecidableEq, Repr

/-- Modelled from the spec: `DoIf(cond)` — evaluated once at decoration
time; if the condition is false the inner function is replaced by a no-op
success. -/
def DoIf (cond : Bool) (f : StepFn) : StepFn := if cond then f else .noop

/-- Modelled from the spec: `SkipIf(cond)` is the negation of `DoIf`. -/
def SkipIf (cond : Bool) (f : StepFn) : StepFn := DoIf (!cond) f

/-- The result running a step function produces. -/
def StepFn.result : StepFn → TaskResult
  | .base _ r => r
  | .noop => .ok

/-- The identities of the opaque base functions invoked when the step
function runs (empty for the no-op). -/
def StepFn.invokes : StepFn → List Nat
  | .base i _ => [i]
  | .noop => []

/-- Modelled from the spec: a Task `{name, run, dependencies}` (spec
section 3); dependencies are the task handles returned by `Add`. -/
structure FTask where
  name : String
  fn : StepFn
  dependencies : List Nat
  deriving DecidableEq, Repr

/-- Modelled from the spec: a Graph `{name, tasks}`, mutable only during
construction. -/
structure Graph where
  name : String
  tasks : List FTask
  deriving DecidableEq, Repr

/-- Modelled from the spec: `NewGraph(name)` creates an empty Graph. -/
def NewGraph (n : String) : Graph := ⟨n, []⟩

/-- Modelled from the spec: `Graph.Add(task)` appends a Task and returns
its TaskHandle; a handle is the registration index, only issuable after
registration. -/
def Graph.Add (g : Graph) (t : FTask) : Graph × Nat :=
  (⟨g.name, g.tasks ++ [t]⟩, g.tasks.length)

/-- The graphs obtainable only through `NewGraph` and `Add`, where each
added task's dependency set contains only handles previously returned by
`Add` on the same graph (each such handle is an index below the current
length). -/
inductive Built : Graph → Prop
  | nil (n : String) : Built (NewGraph n)
  | add (g : Graph) (t : FTask) (hb : Built g)
      (hdeps : ∀ d ∈ t.dependencies, d < g.tasks.length) :
      Built (g.Add t).1

/-- Modelled from the spec: a compiled Flow — immutable, holding the tasks
indexed by handle (spec section 3). -/
structure Flow where
  name : String
  tasks : List FTask
  deriving DecidableEq, Repr

/-- Modelled from the spec (section 4.1): `Compile` validates that all
referenced handles exist within the graph (handle provenance); it performs
no cycle detection because acyclicity is a structural invariant of the
`Add` API. -/
def Graph.Compile (g : Graph) : Option Flow :=
  if g.tasks.all (fun t => t.dependencies.all (fun d => decide (d < g.tasks.length))) then
    some ⟨g.name, g.tasks⟩
  else none

/-- Direct dependency over a task list: task `b` declares a dependency on
task `a`. -/
def depOn (tasks : List FTask) (b a : Nat) : Prop :=
  ∃ t, tasks[b]? = some t ∧ a ∈ t.dependencies

/-- Direct-or-transitive dependency over a task list. -/
inductive DepPath (tasks : List FTask) : Nat → Nat → Prop
  | direct (b a : Nat) : depOn tasks b a → DepPath tasks b a
  | trans (b c a : Nat) : depOn tasks b c → DepPath tasks c a → DepPath tasks b a

/-- Status of one task during a run of the flow executor (spec section
4.2): not yet started, launched, or terminal with the recorded outcome. -/
inductive Status
  | pending
  | running
  | succeeded
  | failed
  deriving DecidableEq, Repr

/-- The scheduler state: one status per task, indexed by handle. -/
abbrev FState := List Status

/-- The initial state of `Flow.Run`: every task pending. -/
def initState (fl : Flow) : FState := List.replicate fl.tasks.length .pending

/-- Observable events of an execution trace: a task's start (its function
is launched) and its terminal transition. -/
inductive Event
  | start (t : Nat)
  | finish (t : Nat)
  deriving DecidableEq, Repr

/-- The terminal status a task result maps to. -/
def resultStatus : TaskResult → Status
  | .ok => .succeeded
  | .err => .failed

/-- The step function of the task with the given handle. -/
def fnOf (fl : Flow) (t : Nat) : StepFn :=
  ((fl.tasks[t]?).map FTask.fn).getD .noop

/-- The declared dependencies of the task with the given handle. -/
def depsOf (fl : Flow) (t : Nat) : List Nat :=
  ((fl.tasks[t]?).map FTask.dependencies).getD []

/-- Modelled from the spec (sections 4.2 and 5): one scheduling step of
`Flow.Run`.  A pending task may start only when every declared dependency
is terminal with status succeeded; independent tasks interleave freely
(the relation is nondeterministic); a running task may finish, its terminal
status recording its function's result. -/
inductive FStep (fl : Flow) : FState → Event → FState → Prop
  | start (s : FState) (t : Nat) (ht : t < fl.tasks.length)
      (hp : s[t]? = some .pending)
      (hd : ∀ d ∈ depsOf fl t, s[d]? = some .succeeded) :
      FStep fl s (.start t) (s.set t .running)
  | finish (s : FState) (t : Nat)
      (hr : s[t]? = some .running) :
      FStep fl s (.finish t) (s.set t (resultStatus (fnOf fl t).result))

/-- Executions of the flow: reflexive-transitive chains of scheduling
steps, recording the trace of events. -/
inductive Exec (fl : Flow) : FState → List Event → FState → Prop
  | refl (s : FState) : Exec fl s [] s
  | step (s s1 s2 : FState) (e : Event) (es : List Event)
      (h1 : FStep fl s e s1) (h2 : Exec fl s1 es s2) : Exec fl s (e :: es) s2

/-- The task identifiers the ConsolidatedError of a finished run reports:
one entry per directly failed task (spec section 4.2). -/
def consolidatedIDs (s : FState) : List Nat :=
  (List.range s.length).filter (fun t => decide (s[t]? = some Status.failed))

/-- The identities of the base functions a given task invoked during a
trace (its function runs once per terminal transition). -/
def invokedBy (fl : Flow) (tr : List Event) (t : Nat) : List Nat :=
  tr.flatMap (fun e =>
    match e with
    | .finish u => if u = t then (fnOf fl t).invokes else []
    | .start _ => [])

/-- The flow with task `t`'s step function replaced (used to compare
scheduling with the run-and-succeed variant of a skipped task). -/
def withFn (fl : Flow) (t : Nat) (f : StepFn) : Flow :=
  match fl.tasks[t]? with
  | some task => ⟨fl.name, fl.tasks.set t ⟨task.name, f, task.dependencies⟩⟩
  | none => fl

/-- Invariant of every reachable scheduler state: a terminal status records
the result of the task's own function. -/
def ResOk (fl : Flow) (s : FState) : Prop :=
  ∀ u : Nat,
    (s[u]? = some Status.succeeded → (fnOf fl u).result = TaskResult.ok) ∧
    (s[u]? = some Status.failed → (fnOf fl u).result = TaskResult.err)

/-- Invariant of every reachable scheduler state when the function of task
`A` fails: every task depending directly or transitively on `A` is still
pending (or outside the flow). -/
def BlockedPending (fl : Flow) (A : Nat) (s : FState) : Prop :=
  ∀ C : Nat, DepPath fl.tasks C A →
    s[C]? = some Status.pending ∨ s[C]? = none

/-- A two-task flow in which task 1 depends on task 0 and both succeed
(concrete instance for the dependency-ordering property). -/
def flW2 : Flow :=
  ⟨"w2", [⟨"a", StepFn.noop, []⟩, ⟨"b", StepFn.noop, [0]⟩]⟩

/-- A two-task flow in which task 0 fails and task 1 depends on it
(concrete instance for the blocked-propagation property). -/
def flW3 : Flow :=
  ⟨"w3", [⟨"a", StepFn.base 0 TaskResult.err, []⟩, ⟨"b", StepFn.noop, [0]⟩]⟩

/-- A one-task flow whose task is decorated with `DoIf(false)` around a
failing base function (concrete instance for the skip property). -/
def flW7 : Flow :=
  ⟨"w7", [⟨"a", DoIf false (StepFn.base 5 TaskResult.err), []⟩]⟩

/-- A two-task graph built only through `Add`, the second task depending on
the handle returned for the first (concrete instance for the acyclicity
property). -/
def gW : Graph :=
  (((NewGraph "w4").Add ⟨"a", StepFn.noop, []⟩).1.Add ⟨"b", StepFn.noop, [0]⟩).1

end FlowPkg



namespace FlowPkg

theorem fstep_length_eq {fl : Flow} {s s1 : FState} {e : Event}
    (h : FStep fl s e s1) : s1.length = s.length := by
  cases h <;> simp

theorem exec_length_eq {fl : Flow} {s0 s : FState} {tr : List Event}
    (h : Exec fl s0 tr s) : s.length = s0.length := by
  induction h with
  | refl s => rfl
  | step s s1 s2 e es h1 h2 ih => rw [ih, fstep_length_eq h1]

theorem exec_append_split {fl : Flow} {s0 s : FState} {l1 l2 : List Event} {e : Event}
    (h : Exec fl s0 (l1 ++ e :: l2) s) :
    ∃ s1 s2, Exec fl s0 l1 s1 ∧ FStep fl s1 e s2 ∧ Exec fl s2 l2 s := by
  induction l1 generalizing s0 with
  | nil =>
    cases h with
    | step s s1 s2 e es h1 h2 => exact ⟨s0, s1, Exec.refl s0, h1, h2⟩
  | cons a l ih =>
    cases h with
    | step s s1 s2 e2 es h1 h2 =>
      obtain ⟨t1, t2, ha, hb, hc⟩ := ih h2
      exact ⟨t1, t2, Exec.step s0 s1 t1 a l h1 ha, hb, hc⟩

theorem finish_mem_of_succeeded {fl : Flow} {s0 s : FState} {tr : List Event} {t : Nat}
    (h : Exec fl s0 tr s) :
    s0[t]? ≠ some Status.succeeded → s[t]? = some Status.succeeded →
      Event.finish t ∈ tr := by
  induction h with
  | refl s => exact fun h0 hs => absurd hs h0
  | step s s1 s2 e es h1 h2 ih =>
    intro h0 hs
    cases h1 with
    | start u hu hp hd =>
      rcases eq_or_ne u t with rfl | hne
      · have hlt : u < s.length := (List.getElem?_eq_some.mp hp).1
        have hrun : (s.set u Status.running)[u]? = some Status.running :=
          List.getElem?_set_self hlt
        exact List.mem_cons_of_mem _ (ih (by rw [hrun]; simp) hs)
      · have heq : (s.set u Status.running)[t]? = s[t]? := List.getElem?_set_ne hne
        exact List.mem_cons_of_mem _ (ih (by rw [heq]; exact h0) hs)
    | finish u hr =>
      rcases eq_or_ne u t with rfl | hne
      · exact List.mem_cons_self _ _
      · have heq : (s.set u (resultStatus (fnOf fl u).result))[t]? = s[t]? :=
          List.getElem?_set_ne hne
        exact List.mem_cons_of_mem _ (ih (by rw [heq]; exact h0) hs)

theorem resOk_init (fl : Flow) : ResOk fl (initState fl) := by
  intro u
  constructor <;> intro h <;>
    simp only [initState, List.getElem?_replicate] at h <;>
    split at h <;> simp_all

theorem resOk_step {fl : Flow} {s s1 : FState} {e : Event}
    (h : FStep fl s e s1) (hres : ResOk fl s) : ResOk fl s1 := by
  cases h with
  | start t ht hp hd =>
    intro u
    rcases eq_or_ne t u with rfl | hne
    · have hlt : t < s.length := (List.getElem?_eq_some.mp hp).1
      rw [List.getElem?_set_self hlt]
      constructor <;> intro h <;> simp at h
    · rw [List.getElem?_set_ne hne]
      exact hres u
  | finish t hr =>
    intro u
    rcases eq_or_ne t u with rfl | hne
    · have hlt : t < s.length := (List.getElem?_eq_some.mp hr).1
      rw [List.getElem?_set_self hlt]
      constructor <;> intro h <;>
        cases hr2 : (fnOf fl t).result <;> simp [resultStatus, hr2] at h <;> rfl
    · rw [List.getElem?_set_ne hne]
      exact hres u

theorem resOk_exec {fl : Flow} {s0 s : FState} {tr : List Event}
    (h : Exec fl s0 tr s) (h0 : ResOk fl s0) : ResOk fl s := by
  induction h with
  | refl s => exact h0
  | step s s1 s2 e es h1 h2 ih => exact ih (resOk_step h1 h0)

theorem depOn_iff_depsOf {fl : Flow} {b a : Nat} :
    depOn fl.tasks b a ↔ a ∈ depsOf fl b := by
  unfold depOn depsOf
  cases h : fl.tasks[b]? with
  | none => simp [h]
  | some t => simp [h]

theorem init_pending {fl : Flow} {A : Nat} (h : A < fl.tasks.length) :
    (initState fl)[A]? = some Status.pending := by
  simp [initState, List.getElem?_replicate, h]

theorem blocked_init (fl : Flow) (A : Nat) : BlockedPending fl A (initState fl) := by
  intro C hC
  rcases Nat.lt_or_ge C fl.tasks.length with h | h
  · exact Or.inl (init_pending h)
  · right
    simp [initState, List.getElem?_replicate, Nat.not_lt.mpr h]

theorem start_blocked_false {fl : Flow} {A B : Nat} {s s1 : FState}
    (hfail : (fnOf fl A).result = TaskResult.err)
    (hres : ResOk fl s) (hblk : BlockedPending fl A s)
    (hdep : DepPath fl.tasks B A)
    (hstep : FStep fl s (Event.start B) s1) : False := by
  cases hstep with
  | start t ht hp hd =>
    cases hdep with
    | direct b a hba =>
      have hA : s[A]? = some Status.succeeded := hd A (depOn_iff_depsOf.mp hba)
      have hok := (hres A).1 hA
      rw [hfail] at hok
      exact TaskResult.noConfusion hok
    | trans b c a hbc hca =>
      have hc : s[c]? = some Status.succeeded := hd c (depOn_iff_depsOf.mp hbc)
      rcases hblk c hca with h | h <;> rw [h] at hc <;> simp at hc

theorem blocked_step {fl : Flow} {A : Nat} {s s1 : FState} {e : Event}
    (hfail : (fnOf fl A).result = TaskResult.err)
    (hres : ResOk fl s) (hblk : BlockedPending fl A s)
    (h : FStep fl s e s1) : BlockedPending fl A s1 := by
  cases h with
  | start t ht hp hd =>
    intro C hC
    rcases eq_or_ne t C with rfl | hne
    · exact (start_blocked_false hfail hres hblk hC (FStep.start s t ht hp hd)).elim
    · rw [List.getElem?_set_ne hne]
      exact hblk C hC
  | finish t hr =>
    intro C hC
    rcases eq_or_ne t C with rfl | hne
    · rcases hblk t hC with h | h <;> rw [hr] at h <;> simp at h
    · rw [List.getElem?_set_ne hne]
      exact hblk C hC

theorem blocked_exec {fl : Flow} {A : Nat} {s0 s : FState} {tr : List Event}
    (hfail : (fnOf fl A).result = TaskResult.err)
    (h : Exec fl s0 tr s) :
    ResOk fl s0 → BlockedPending fl A s0 → ResOk fl s ∧ BlockedPending fl A s := by
  induction h with
  | refl s => exact fun hres hblk => ⟨hres, hblk⟩
  | step s s1 s2 e es h1 h2 ih =>
    exact fun hres hblk => ih (resOk_step h1 hres) (blocked_step hfail hres hblk h1)

/-- C2: for every flow (in particular every compiled flow) and every pair
of tasks A, B where B declares a dependency on A, in every execution trace
in which B starts, A's terminal transition (to status succeeded — a task
skipped via `DoIf(false)` carries the no-op success function and terminates
with the same status) is observed strictly before B's start. -/
theorem flow_dependency_ordering (fl : Flow) (A B : Nat)
    (hAB : A ∈ depsOf fl B)
    (tr1 tr2 : List Event) (s : FState)
    (hex : Exec fl (initState fl) (tr1 ++ Event.start B :: tr2) s) :
    ∃ s1, Exec fl (initState fl) tr1 s1 ∧ s1[A]? = some Status.succeeded ∧
      Event.finish A ∈ tr1 := by
  obtain ⟨s1, s2, he1, hstep, he2⟩ := exec_append_split hex
  have hA : s1[A]? = some Status.succeeded := by
    cases hstep with
    | start t ht hp hd => exact hd A hAB
  have hlen : A < s1.length := (List.getElem?_eq_some.mp hA).1
  have hlen0 : A < fl.tasks.length := by
    have hl := exec_length_eq he1
    rw [hl] at hlen
    simpa [initState] using hlen
  have hfin : Event.finish A ∈ tr1 :=
    finish_mem_of_succeeded he1 (by rw [init_pending hlen0]; simp) hA
  exact ⟨s1, he1, hA, hfin⟩

/-- C3: in every flow run in which task A's function fails and task B
depends directly or transitively on A, B is never started (its function is
never invoked), and once A has terminally failed the consolidated error
contains exactly one entry for A and no entry for B. -/
theorem flow_blocked_propagation (fl : Flow) (A B : Nat)
    (hdep : DepPath fl.tasks B A)
    (hfail : (fnOf fl A).result = TaskResult.err)
    (tr : List Event) (s : FState)
    (hex : Exec fl (initState fl) tr s)
    (hA : s[A]? = some Status.failed) :
    Event.start B ∉ tr ∧ (consolidatedIDs s).count A = 1 ∧
      B ∉ consolidatedIDs s := by
  obtain ⟨hres, hblk⟩ := blocked_exec hfail hex (resOk_init fl) (blocked_init fl A)
  refine ⟨?_, ?_, ?_⟩
  · intro hmem
    obtain ⟨l1, l2, rfl⟩ := List.append_of_mem hmem
    obtain ⟨s1, s2, he1, hstep, he2⟩ := exec_append_split hex
    obtain ⟨hres1, hblk1⟩ := blocked_exec hfail he1 (resOk_init fl) (blocked_init fl A)
    exact start_blocked_false hfail hres1 hblk1 hdep hstep
  · have hlen : A < s.length := (List.getElem?_eq_some.mp hA).1
    have hmem : A ∈ consolidatedIDs s := by
      unfold consolidatedIDs
      rw [List.mem_filter]
      exact ⟨List.mem_range.mpr hlen, by simp [hA]⟩
    exact List.count_eq_one_of_mem ((List.nodup_range _).filter _) hmem
  · intro hmem
    unfold consolidatedIDs at hmem
    rw [List.mem_filter] at hmem
    have hB := of_decide_eq_true hmem.2
    rcases hblk B hdep with h | h <;> rw [h] at hB <;> simp at hB

theorem built_depOn_lt {g : Graph} (hb : Built g) :
    ∀ b a, depOn g.tasks b a → a < b := by
  induction hb with
  | nil n =>
    intro b a h
    obtain ⟨u, hu, hmem⟩ := h
    simp [NewGraph] at hu
  | add g t hbg hdeps ih =>
    intro b a h
    obtain ⟨u, hu, hmem⟩ := h
    have htasks : (g.Add t).1.tasks = g.tasks ++ [t] := rfl
    rw [htasks, List.getElem?_append] at hu
    rcases Nat.lt_trichotomy b g.tasks.length with hlt | heq | hgt
    · rw [if_pos hlt] at hu
      exact ih b a ⟨u, hu, hmem⟩
    · rw [if_neg (by omega), heq, Nat.sub_self] at hu
      simp at hu
      rw [heq]
      exact hdeps a (hu ▸ hmem)
    · rw [if_neg (by omega)] at hu
      have : b - g.tasks.length ≥ 1 := by omega
      rcases Nat.exists_eq_add_of_le this with ⟨m, hm⟩
      rw [hm] at hu
      rw [List.getElem?_eq_none (by simp)] at hu
      exact Option.noConfusion hu

theorem depPath_lt {tasks : List FTask} (hlt : ∀ b a, depOn tasks b a → a < b)
    {b a : Nat} (h : DepPath tasks b a) : a < b := by
  induction h with
  | direct b a hba => exact hlt b a hba
  | trans b c a hbc hca ih => exact Nat.lt_trans ih (hlt b c hbc)

/-- C4: for every graph constructed only through `Add`, each task's
dependency set containing only handles previously returned by `Add` on the
same graph, the dependency relation is acyclic and `Compile` succeeds —
it never reports a cycle (nor any other error). -/
theorem graph_built_acyclic_compiles (g : Graph) (hb : Built g) :
    (∀ i, ¬ DepPath g.tasks i i) ∧ ∃ fl, g.Compile = some fl := by
  have hlt := built_depOn_lt hb
  refine ⟨fun i hcyc => absurd (depPath_lt hlt hcyc) (Nat.lt_irrefl i), ?_⟩
  unfold Graph.Compile
  have hall : (g.tasks.all fun t =>
      t.dependencies.all fun d => decide (d < g.tasks.length)) = true := by
    rw [List.all_eq_true]
    intro x hx
    rw [List.all_eq_true]
    intro d hd
    obtain ⟨b, hblen, hxb⟩ := List.mem_iff_getElem.mp hx
    have hdep : depOn g.tasks b d :=
      ⟨x, List.getElem?_eq_some.mpr ⟨hblen, hxb⟩, hd⟩
    exact decide_eq_true (Nat.lt_trans (hlt b d hdep) hblen)
  rw [if_pos hall]
  exact ⟨_, rfl⟩

theorem withFn_tasks_length (fl : Flow) (t : Nat) (f : StepFn) :
    (withFn fl t f).tasks.length = fl.tasks.length := by
  unfold withFn
  cases h : fl.tasks[t]? <;> simp

theorem depsOf_withFn (fl : Flow) (t : Nat) (f : StepFn) (u : Nat) :
    depsOf (withFn fl t f) u = depsOf fl u := by
  unfold withFn
  cases h : fl.tasks[t]? with
  | none => rfl
  | some task =>
    have hlt : t < fl.tasks.length := (List.getElem?_eq_some.mp h).1
    unfold depsOf
    rcases eq_or_ne t u with rfl | hne
    · simp [List.getElem?_set_self hlt, h]
    · simp [List.getElem?_set_ne hne]

theorem result_withFn_ok {fl : Flow} {t : Nat} {g : StepFn} (i : Nat)
    (hfn : fnOf fl t = DoIf false g) (u : Nat) :
    (fnOf (withFn fl t (StepFn.base i TaskResult.ok)) u).result =
      (fnOf fl u).result := by
  unfold withFn
  cases h : fl.tasks[t]? with
  | none => rfl
  | some task =>
    have hlt : t < fl.tasks.length := (List.getElem?_eq_some.mp h).1
    rcases eq_or_ne t u with rfl | hne
    · unfold fnOf at hfn ⊢
      rw [h] at hfn
      simp only [Option.map_some', Option.getD_some] at hfn
      simp only [List.getElem?_set_self hlt, h, Option.map_some', Option.getD_some]
      rw [hfn]
      rfl
    · unfold fnOf
      simp only [List.getElem?_set_ne hne]

theorem fstep_congr {fl fl2 : Flow}
    (hlen : fl2.tasks.length = fl.tasks.length)
    (hdeps : ∀ u, depsOf fl2 u = depsOf fl u)
    (hres : ∀ u, (fnOf fl2 u).result = (fnOf fl u).result)
    {s s1 : FState} {e : Event} (h : FStep fl s e s1) : FStep fl2 s e s1 := by
  cases h with
  | start t ht hp hd =>
    exact FStep.start s t (by rw [hlen]; exact ht) hp (by rw [hdeps]; exact hd)
  | finish t hr =>
    have hfin := @FStep.finish fl2 s t hr
    rw [hres t] at hfin
    exact hfin

theorem exec_congr {fl fl2 : Flow}
    (hlen : fl2.tasks.length = fl.tasks.length)
    (hdeps : ∀ u, depsOf fl2 u = depsOf fl u)
    (hres : ∀ u, (fnOf fl2 u).result = (fnOf fl u).result)
    {s0 s : FState} {tr : List Event}
    (h : Exec fl s0 tr s) : Exec fl2 s0 tr s := by
  induction h with
  | refl s => exact Exec.refl s
  | step s s1 s2 e es h1 h2 ih =>
    exact Exec.step s s1 s2 e es (fstep_congr hlen hdeps hres h1) ih

/-- C7: a task decorated with `DoIf(false)` never has its wrapped step
function invoked in any trace of the flow executor, never terminates in
failure (it is treated as successful), and the executor's possible traces
are exactly those of the flow in which the task is an ordinary function
that runs and succeeds — its dependents are scheduled exactly as if it had
run and succeeded. -/
theorem flow_doif_false_skip (fl : Flow) (t i : Nat) (g : StepFn)
    (hfn : fnOf fl t = DoIf false g) :
    (∀ tr : List Event, invokedBy fl tr t = [])
    ∧ (∀ (tr : List Event) (s : FState), Exec fl (initState fl) tr s →
        s[t]? ≠ some Status.failed)
    ∧ (∀ (tr : List Event) (s : FState),
        Exec fl (initState fl) tr s ↔
          Exec (withFn fl t (StepFn.base i TaskResult.ok))
            (initState (withFn fl t (StepFn.base i TaskResult.ok))) tr s) := by
  have hres := result_withFn_ok i hfn
  have hlen := withFn_tasks_length fl t (StepFn.base i TaskResult.ok)
  have hdeps := depsOf_withFn fl t (StepFn.base i TaskResult.ok)
  have hinit : initState (withFn fl t (StepFn.base i TaskResult.ok)) = initState fl := by
    simp [initState, hlen]
  refine ⟨?_, ?_, ?_⟩
  · intro tr
    unfold invokedBy
    rw [List.flatMap_eq_nil_iff]
    intro e he
    cases e with
    | start u => rfl
    | finish u =>
      rcases eq_or_ne u t with rfl | hne
      · simp [hfn, DoIf, StepFn.invokes]
      · simp [hne]
  · intro tr s hex hcon
    have hbad := (resOk_exec hex (resOk_init fl) t).2 hcon
    rw [hfn] at hbad
    simp [DoIf, StepFn.result] at hbad
  · intro tr s
    constructor
    · intro hex
      rw [hinit]
      exact exec_congr hlen hdeps hres hex
    · intro hex
      rw [hinit] at hex
      exact exec_congr (by rw [hlen]) (fun u => (hdeps u).symm) (fun u => (hres u).symm) hex

theorem flow_dependency_ordering_witness :
    ∃ s1, Exec flW2 (initState flW2) [Event.start 0, Event.finish 0] s1 ∧
      s1[0]? = some Status.succeeded ∧
      Event.finish 0 ∈ [Event.start 0, Event.finish 0] := by
  refine flow_dependency_ordering flW2 0 1 (by simp [depsOf, flW2])
    [Event.start 0, Event.finish 0] [] [Status.succeeded, Status.running] ?_
  have h1 : FStep flW2 [Status.pending, Status.pending] (Event.start 0)
      [Status.running, Status.pending] :=
    FStep.start _ 0 (by decide) rfl (by simp [depsOf, flW2])
  have h2 : FStep flW2 [Status.running, Status.pending] (Event.finish 0)
      [Status.succeeded, Status.pending] :=
    FStep.finish _ 0 rfl
  have h3 : FStep flW2 [Status.succeeded, Status.pending] (Event.start 1)
      [Status.succeeded, Status.running] :=
    FStep.start _ 1 (by decide) rfl
      (by intro d hd; simp [depsOf, flW2] at hd; subst hd; rfl)
  exact Exec.step _ _ _ _ _ h1 (Exec.step _ _ _ _ _ h2
    (Exec.step _ _ _ _ _ h3 (Exec.refl _)))

theorem flow_blocked_propagation_witness :
    Event.start 1 ∉ [Event.start 0, Event.finish 0] ∧
      (consolidatedIDs [Status.failed, Status.pending]).count 0 = 1 ∧
      1 ∉ consolidatedIDs [Status.failed, Status.pending] := by
  refine flow_blocked_propagation flW3 0 1
    (DepPath.direct 1 0 ⟨⟨"b", StepFn.noop, [0]⟩, rfl, by simp⟩) rfl
    [Event.start 0, Event.finish 0] [Status.failed, Status.pending] ?_ rfl
  have h1 : FStep flW3 [Status.pending, Status.pending] (Event.start 0)
      [Status.running, Status.pending] :=
    FStep.start _ 0 (by decide) rfl (by simp [depsOf, flW3])
  have h2 : FStep flW3 [Status.running, Status.pending] (Event.finish 0)
      [Status.failed, Status.pending] :=
    FStep.finish _ 0 rfl
  exact Exec.step _ _ _ _ _ h1 (Exec.step _ _ _ _ _ h2 (Exec.refl _))

theorem graph_built_acyclic_compiles_witness :
    (¬ DepPath gW.tasks 1 1) ∧ gW.Compile.isSome = true := by
  have hb : Built gW :=
    Built.add _ ⟨"b", StepFn.noop, [0]⟩
      (Built.add _ ⟨"a", StepFn.noop, []⟩ (Built.nil "w4") (by simp))
      (by simp [NewGraph, Graph.Add])
  have h := graph_built_acyclic_compiles gW hb
  refine ⟨h.1 1, ?_⟩
  rcases h.2 with ⟨fl, hfl⟩
  rw [hfl]
  rfl

theorem flow_doif_false_skip_witness :
    invokedBy flW7 [Event.start 0, Event.finish 0] 0 = [] ∧
      ([Status.succeeded] : FState)[0]? ≠ some Status.failed := by
  have h := flow_doif_false_skip flW7 0 9 (StepFn.base 5 TaskResult.err) rfl
  refine ⟨h.1 [Event.start 0, Event.finish 0],
    h.2.1 [Event.start 0, Event.finish 0] [Status.succeeded] ?_⟩
  have h1 : FStep flW7 [Status.pending] (Event.start 0) [Status.running] :=
    FStep.start _ 0 (by decide) rfl (by simp [depsOf, flW7])
  have h2 : FStep flW7 [Status.running] (Event.finish 0) [Status.succeeded] :=
    FStep.finish _ 0 rfl
  exact Exec.step _ _ _ _ _ h1 (Exec.step _ _ _ _ _ h2 (Exec.refl _))

end FlowPkg

namespace ErrorsPkg

theorem handleLoop_cancel (prior : List String) (pre post : List ECTask) (id : String)
    (hpre : ∀ t ∈ pre, t.fn ≠ StepOutcome.cancel) :
    (handleLoop prior (pre ++ ToExecute id StepOutcome.cancel :: post)).executed
      = pre.map ECTask.errorID ++ [id]
    ∧ (handleLoop prior (pre ++ ToExecute id StepOutcome.cancel :: post)).canceled = true := by
  induction pre with
  | nil => simp [handleLoop, ToExecute]
  | cons t rest ih =>
    have ht := hpre t (by simp)
    obtain ⟨ih1, ih2⟩ := ih fun u hu => hpre u (by simp [hu])
    cases hfn : t.fn with
    | cancel => exact absurd hfn ht
    | success =>
      constructor <;> simp [handleLoop, hfn, ih1, ih2]
    | failure =>
      constructor <;> simp [handleLoop, hfn, ih1, ih2]

/-- C1 (amended): if a step's function returns the cancellation sentinel,
the remaining steps are not executed, and `HandleErrors` returns not nil
but a non-nil error recognised by `WasCanceled`, which lets the caller
detect the cancellation distinctly from true success; the caller
(`runPrepareShootControlPlaneMigration`) then maps it to "no error". -/
theorem handleErrors_cancel_aborts (ec : ErrorContext) (pre post : List ECTask) (id : String)
    (hpre : ∀ t ∈ pre, t.fn ≠ StepOutcome.cancel) :
    (HandleErrors ec (pre ++ ToExecute id StepOutcome.cancel :: post)).executed
      = pre.map ECTask.errorID ++ [id]
    ∧ (HandleErrors ec (pre ++ ToExecute id StepOutcome.cancel :: post)).result ≠ none
    ∧ WasCanceled (HandleErrors ec (pre ++ ToExecute id StepOutcome.cancel :: post)).result
        = true
    ∧ migrateErrorHandling
        (HandleErrors ec (pre ++ ToExecute id StepOutcome.cancel :: post)).result = none := by
  obtain ⟨h1, h2⟩ := handleLoop_cancel ec.priorFailedIDs pre post id hpre
  unfold HandleErrors
  simp [h1, h2, WasCanceled, migrateErrorHandling]

/-- C1 counterexample: with the concrete steps
`[ToExecute "A" cancel, ToExecute "B" success]`, `HandleErrors` does not
return "no error" (nil) to the caller — it returns the non-nil
cancellation error — even though the remaining step "B" is indeed not
executed; so the claim's "returns nil" clause is false as stated. -/
theorem handleErrors_cancel_counterexample :
    (HandleErrors (NewErrorContext "scope" [])
        [ToExecute "A" StepOutcome.cancel, ToExecute "B" StepOutcome.success]).result ≠ none
    ∧ WasCanceled (HandleErrors (NewErrorContext "scope" [])
        [ToExecute "A" StepOutcome.cancel, ToExecute "B" StepOutcome.success]).result = true
    ∧ "B" ∉ (HandleErrors (NewErrorContext "scope" [])
        [ToExecute "A" StepOutcome.cancel, ToExecute "B" StepOutcome.success]).executed := by
  refine ⟨?_, rfl, ?_⟩
  · intro h
    exact Option.noConfusion h
  · intro h
    simp [HandleErrors, handleLoop, NewErrorContext, ToExecute] at h

theorem handleErrors_cancel_aborts_witness :
    (HandleErrors (NewErrorContext "s" ["P"])
        [ToExecute "P" StepOutcome.success, ToExecute "A" StepOutcome.cancel,
          ToExecute "B" StepOutcome.success]).executed
      = List.map ECTask.errorID [ToExecute "P" StepOutcome.success] ++ ["A"]
    ∧ (HandleErrors (NewErrorContext "s" ["P"])
        [ToExecute "P" StepOutcome.success, ToExecute "A" StepOutcome.cancel,
          ToExecute "B" StepOutcome.success]).result ≠ none
    ∧ WasCanceled (HandleErrors (NewErrorContext "s" ["P"])
        [ToExecute "P" StepOutcome.success, ToExecute "A" StepOutcome.cancel,
          ToExecute "B" StepOutcome.success]).result = true
    ∧ migrateErrorHandling (HandleErrors (NewErrorContext "s" ["P"])
        [ToExecute "P" StepOutcome.success, ToExecute "A" StepOutcome.cancel,
          ToExecute "B" StepOutcome.success]).result = none :=
  handleErrors_cancel_aborts (NewErrorContext "s" ["P"])
    [ToExecute "P" StepOutcome.success] [ToExecute "B" StepOutcome.success] "A"
    (by intro t ht; simp [ToExecute] at ht; rw [ht]; intro hc; exact StepOutcome.noConfusion hc)

end ErrorsPkg

namespace RetryPkg

/-- C5: the probe-function contract of the bounded poller: a return of
`(done=true, error=nil)` (`Ok`) terminates the poll with success;
`(done=false, error=non-nil)` (`MinorError e`) causes another retry with
`e` remembered as the candidate failure; `(done=true, error=non-nil)`
(`SevereError e`) terminates the poll immediately with `e` as a fatal
failure; and on `UntilTimeout` entry the same contract applies to the
first invocation. -/
theorem untilTimeout_probe_contract (probe : Nat → ProbeResult) (k fuel : Nat)
    (last : Option String) :
    (probe k = Ok → pollFrom probe k last (fuel + 1) = PollOutcome.success)
    ∧ (∀ e, probe k = MinorError e →
        pollFrom probe k last (fuel + 1) = pollFrom probe (k + 1) (some e) fuel)
    ∧ (∀ e, probe k = SevereError e →
        pollFrom probe k last (fuel + 1) = PollOutcome.severe e)
    ∧ (probe 0 = Ok → UntilTimeout (fuel + 1) probe = PollOutcome.success) := by
  refine ⟨fun h => ?_, fun e h => ?_, fun e h => ?_, fun h => ?_⟩ <;>
    simp [pollFrom, UntilTimeout, h, Ok, SevereError, MinorError]

theorem untilTimeout_probe_contract_witness :
    pollFrom (fun _ => Ok) 0 none 1 = PollOutcome.success :=
  (untilTimeout_probe_contract (fun _ => Ok) 0 0 none).1 rfl

theorem pollFrom_all_minor (probe : Nat → ProbeResult) (es : Nat → String)
    (h : ∀ k, probe k = MinorError (es k)) :
    ∀ fuel k last, pollFrom probe k last (fuel + 1) =
      PollOutcome.timedOut (some (es (k + fuel))) := by
  intro fuel
  induction fuel with
  | zero =>
    intro k last
    simp [pollFrom, h k, MinorError]
  | succ n ih =>
    intro k last
    have hstep : pollFrom probe k last (n + 1 + 1) =
        pollFrom probe (k + 1) (some (es k)) (n + 1) := by
      simp [pollFrom, h k, MinorError]
    rw [hstep, ih (k + 1)]
    have harith : k + 1 + n = k + (n + 1) := by omega
    rw [harith]

/-- C6: for a probe that reports transient (not-done) failure on every
invocation, the bounded poller with a timeout allowing T attempts returns,
once the timeout elapses, exactly the most recently remembered transient
error — the one returned by the last attempt, index T - 1. -/
theorem untilTimeout_exhaustion (probe : Nat → ProbeResult) (es : Nat → String)
    (h : ∀ k, probe k = MinorError (es k)) (T : Nat) (hT : 0 < T) :
    UntilTimeout T probe = PollOutcome.timedOut (some (es (T - 1))) := by
  obtain ⟨n, rfl⟩ : ∃ n, T = n + 1 := ⟨T - 1, by omega⟩
  unfold UntilTimeout
  rw [pollFrom_all_minor probe es h n 0 none]
  simp

theorem untilTimeout_exhaustion_witness :
    UntilTimeout 3 (fun _ => MinorError "transient") =
      PollOutcome.timedOut (some "transient") :=
  untilTimeout_exhaustion (fun _ => MinorError "transient") (fun _ => "transient")
    (fun _ => rfl) 3 (by decide)

end RetryPkg

namespace WatchdogCommon

/-- C8: `leaderCheck` is not total: for every call in which
`net.LookupTXT` returns an empty record slice (whatever the accompanying
error, since the error branch only logs and does not return before the
indexing), the unguarded index `owner[0]` is out of bounds and
`leaderCheck` panics (`none`) instead of returning a boolean — while for a
non-empty slice it does return a boolean. -/
theorem leaderCheck_empty_records_panics (w : Watchdog) (e : Option String) :
    leaderCheck w ⟨[], e⟩ = none
    ∧ ∀ o rest, (leaderCheck w ⟨o :: rest, e⟩).isSome = true :=
  ⟨rfl, fun o rest => rfl⟩

end WatchdogCommon

namespace LeaseWatchdog

/-- C9: the `clusterLeaseWatchdog` returned by `NewReconciler` has a nil
`clustersToCheck` map, so every `Register` call panics on the assignment
into the nil map, and every `Reconcile` call that observes an expired lease
for a namespace with no registered entry (in particular any namespace on
the reconciler returned by `NewReconciler`) invokes a nil cancel function
and panics. -/
theorem clusterLeaseWatchdog_nil_map (ns : String) (cf : CancelId) :
    NewReconciler.clustersToCheck = none
    ∧ Register NewReconciler ns cf = none
    ∧ (∀ (w : ClusterLeaseWatchdog) (ns2 : String),
        mapLookup w.clustersToCheck ns2 = none →
        Reconcile w ns2 false true = ReconcileOutcome.panic) := by
  refine ⟨rfl, rfl, fun w ns2 h => ?_⟩
  simp [Reconcile, h]

theorem clusterLeaseWatchdog_nil_map_witness :
    Register NewReconciler "shoot--foo--bar" 0 = none
    ∧ Reconcile NewReconciler "shoot--foo--bar" false true = ReconcileOutcome.panic := by
  have h := clusterLeaseWatchdog_nil_map "shoot--foo--bar" 0
  exact ⟨h.2.1, h.2.2 NewReconciler "shoot--foo--bar" rfl⟩

end LeaseWatchdog

namespace UtilsObject

theorem createOrUpdateLoop_total (env : Nat → Attempt) :
    ∀ fuel retries, maxRetries + 1 ≤ retries + fuel → retries ≤ maxRetries →
      (createOrUpdateLoop env retries fuel).isSome = true := by
  intro fuel
  induction fuel with
  | zero =>
    intro r h1 h2
    exact absurd h1 (by simp [maxRetries] at h2 ⊢; omega)
  | succ n ih =>
    intro r h1 h2
    unfold createOrUpdateLoop
    cases hget : (env r).get <;> simp only
    case getErr => rfl
    all_goals
      cases hw : (env r).write <;> simp only
    case found.writeOk => rfl
    case notFound.writeOk => rfl
    case found.otherErr => rfl
    case notFound.otherErr => rfl
    all_goals
      rcases eq_or_ne r maxRetries with rfl | hne
    case found.conflict.inl => simp
    case notFound.conflict.inl => simp
    all_goals
      rw [if_neg (by simpa using hne)]
    all_goals
      exact ih (r + 1) (by omega) (by omega)

/-- C10: `CreateOrUpdateObject` terminates on every input: the
optimistic-concurrency retry loop completes within `maxRetries + 1 = 4`
create-or-update attempts; an attempt whose write succeeds returns nil at
once; an attempt that fails with a non-conflict error returns a wrapped
error at once; and a conflict at `retries = maxRetries` (the retry budget
exhausted) returns a wrapped error at once. -/
theorem createOrUpdateObject_spec (env : Nat → Attempt) :
    (CreateOrUpdateObject env).isSome = true
    ∧ maxRetries + 1 = 4
    ∧ (∀ k fuel, (env k).get ≠ GetOutcome.getErr → (env k).write = WriteOutcome.writeOk →
        createOrUpdateLoop env k (fuel + 1) = some CouResult.success)
    ∧ (∀ k fuel, (env k).get ≠ GetOutcome.getErr → (env k).write = WriteOutcome.otherErr →
        createOrUpdateLoop env k (fuel + 1) = some CouResult.writeFailure)
    ∧ (∀ fuel, (env maxRetries).get ≠ GetOutcome.getErr →
        (env maxRetries).write = WriteOutcome.conflict →
        createOrUpdateLoop env maxRetries (fuel + 1) = some CouResult.writeFailure) := by
  refine ⟨createOrUpdateLoop_total env (maxRetries + 1) 0 (by omega) (by omega),
    rfl, ?_, ?_, ?_⟩
  · intro k fuel hget hw
    unfold createOrUpdateLoop
    cases hg : (env k).get <;> simp [hg, hw] at hget ⊢
  · intro k fuel hget hw
    unfold createOrUpdateLoop
    cases hg : (env k).get <;> simp [hg, hw] at hget ⊢
  · intro fuel hget hw
    unfold createOrUpdateLoop
    cases hg : (env maxRetries).get <;> simp [hg, hw] at hget ⊢

theorem createOrUpdateObject_spec_witness :
    (CreateOrUpdateObject (fun _ => ⟨GetOutcome.found, WriteOutcome.writeOk⟩)).isSome = true
    ∧ createOrUpdateLoop (fun _ => ⟨GetOutcome.found, WriteOutcome.writeOk⟩) 0 1
        = some CouResult.success := by
  have h := createOrUpdateObject_spec (fun _ => ⟨GetOutcome.found, WriteOutcome.writeOk⟩)
  exact ⟨h.1, h.2.2.1 0 0 (by simp) rfl⟩

end UtilsObject
